import Mathlib

/-!
Shallow embedding of the rule-based Cypher query planner
(`src/query/plan/rule_based_planner.cpp`) and proofs about its
return-body pipeline, filter extraction, CREATE planning and
named-path construction.

Symbol-table lookups are fused into the AST: wherever the C++ code
calls `symbol_table.at(node)`, the embedded AST node carries the
resolved `Symbol` directly.  `std::unordered_set<Symbol>` is modelled
as a duplicate-free `List Symbol` with `insertSym` mirroring
`insert` (which reports whether the element was newly inserted).
-/

namespace QueryPlan

/-- Kind of a symbol, as assigned in semantic analysis. -/
inductive SymbolKind where
  | node
  | edge
  | path
  | expression
  | anyKind
deriving DecidableEq, Repr

/-- Symbol handle: name, token position, kind and a user-declared flag.
Equality is by the whole tuple, matching identity of the triple
assigned at semantic analysis. -/
structure Symbol where
  name : String
  position : Nat
  kind : SymbolKind
  user_declared : Bool
deriving DecidableEq, Repr

/-- Set insertion on the list model of `std::unordered_set<Symbol>`:
returns the new set and whether the symbol was newly inserted
(the `.second` of `insert`). -/
def insertSym (bound : List Symbol) (s : Symbol) : List Symbol × Bool :=
  if s ∈ bound then (bound, false) else (bound ++ [s], true)

/-- Insert every symbol of a list into a symbol set, left to right. -/
def insertAll (bound : List Symbol) (syms : List Symbol) : List Symbol :=
  syms.foldl (fun b s => (insertSym b s).1) bound

/-- The `all_are_bound` check of `GenNamedPaths`: every symbol of the
list is in the bound set. -/
def allAreBound (bound : List Symbol) (syms : List Symbol) : Bool :=
  syms.all fun s => decide (s ∈ bound)

/-- Aggregation operation kinds, as in `Aggregation::Op`. -/
inductive AggrOp where
  | count
  | sum
  | avg
  | min
  | max
  | collect
  | collectMap
deriving DecidableEq, Repr

/-- Aggregation operations that take a single argument expression
(every op except `COLLECT_MAP`, which takes two, and `COUNT(*)`,
which takes none; the AST guarantees `expression2_` is non-null
exactly for `COLLECT_MAP`). -/
inductive AggrOp1 where
  | count
  | sum
  | avg
  | min
  | max
  | collect
deriving DecidableEq, Repr

/-- Injection of single-argument aggregation ops into `AggrOp`. -/
def AggrOp1.toOp : AggrOp1 → AggrOp
  | .count => .count
  | .sum => .sum
  | .avg => .avg
  | .min => .min
  | .max => .max
  | .collect => .collect

/-- Tags for the sixteen binary operators handled by
`VISIT_BINARY_OPERATOR`; the classifier treats them all alike. -/
inductive BinOp where
  | orOp
  | xorOp
  | andOp
  | add
  | sub
  | mul
  | div
  | mod
  | ne
  | eq
  | lt
  | gt
  | le
  | ge
  | inList
  | listMapIndexing
deriving DecidableEq, Repr

/-- Expressions of the return-body fragment visited by
`ReturnBodyContext`.  Identifiers and aggregations carry their
symbol-table entry directly. -/
inductive Expr where
  /-- A primitive literal (`PrimitiveLiteral`). -/
  | lit
  /-- A parameter lookup (`ParameterLookup`). -/
  | param
  /-- An identifier together with its resolved symbol. -/
  | ident (s : Symbol)
  /-- One of the sixteen binary operators. -/
  | binop (k : BinOp) (e₁ e₂ : Expr)
  /-- A function call (`Function`) with its argument list. -/
  | fn (args : List Expr)
  /-- A list literal with its element expressions. -/
  | listLit (elems : List Expr)
  /-- A map literal with its value expressions. -/
  | mapLit (elems : List Expr)
  /-- `COUNT(*)`: an aggregation whose `expression1_` is null. -/
  | aggrCountStar (sym : Symbol)
  /-- A single-argument aggregation with its result symbol. -/
  | aggr (e₁ : Expr) (op : AggrOp1) (sym : Symbol)
  /-- `COLLECT_MAP`, the only aggregation with two arguments. -/
  | aggrCollectMap (e₁ e₂ : Expr) (sym : Symbol)
deriving Repr

/-- An `Aggregate::Element`: argument expressions, op and the virtual
result symbol. -/
structure AggElem where
  expression1 : Option Expr
  expression2 : Option Expr
  op : AggrOp
  sym : Symbol
deriving Repr

/-- A named expression (`expr AS name`) with its symbol-table entry. -/
structure NamedExpr where
  name : String
  expr : Expr
  sym : Symbol
deriving Repr

/-- Mutable state of the `ReturnBodyContext` visitor: used symbols,
output symbols, collected aggregations, group-by expressions, the
`has_aggregation_` stack (head of the list is the top of the stack)
and the accumulated named expressions. -/
structure ClassifierState where
  used_symbols : List Symbol
  output_symbols : List Symbol
  aggregations : List AggElem
  group_by : List Expr
  has_aggregation : List Bool
  named_expressions : List NamedExpr
deriving Repr

/-- The empty classifier state. -/
def ClassifierState.empty : ClassifierState :=
  ⟨[], [], [], [], [], []⟩

/-- Push a flag on the `has_aggregation_` stack. -/
def ClassifierState.pushFlag (st : ClassifierState) (b : Bool) : ClassifierState :=
  { st with has_aggregation := b :: st.has_aggregation }

mutual

/-- Post-order visit of one expression, mirroring the `Visit`,
`PreVisit` and `PostVisit` methods of `ReturnBodyContext`. -/
def visitExpr : ClassifierState → Expr → ClassifierState
  | st, .lit => st.pushFlag false
  | st, .param => st.pushFlag false
  | st, .ident s =>
    let st :=
      if s ∈ st.output_symbols then st
      else { st with used_symbols := (insertSym st.used_symbols s).1 }
    st.pushFlag false
  | st, .binop _ e₁ e₂ =>
    let st₂ := visitExpr (visitExpr st e₁) e₂
    let aggr2 := st₂.has_aggregation.headD false
    let rest₁ := st₂.has_aggregation.tail
    let aggr1 := rest₁.headD false
    let rest := rest₁.tail
    let has_aggr := aggr1 || aggr2
    let gb :=
      if has_aggr && !(aggr1 && aggr2) then
        st₂.group_by ++ [if aggr1 then e₂ else e₁]
      else st₂.group_by
    { st₂ with group_by := gb, has_aggregation := has_aggr :: rest }
  | st, .fn args =>
    let st₁ := visitList st args
    let has_aggr := (st₁.has_aggregation.take args.length).any id
    { st₁ with has_aggregation := has_aggr :: st₁.has_aggregation.drop args.length }
  | st, .listLit elems =>
    let st₁ := visitList st elems
    let has_aggr := (st₁.has_aggregation.take elems.length).any id
    { st₁ with has_aggregation := has_aggr :: st₁.has_aggregation.drop elems.length }
  | st, .mapLit elems =>
    let st₁ := visitList st elems
    let has_aggr := (st₁.has_aggregation.take elems.length).any id
    { st₁ with has_aggregation := has_aggr :: st₁.has_aggregation.drop elems.length }
  | st, .aggrCountStar sym =>
    let st₁ := { st with aggregations := st.aggregations ++ [AggElem.mk none none .count sym] }
    st₁.pushFlag true
  | st, .aggr e₁ op sym =>
    let st₁ := visitExpr st e₁
    let st₂ := { st₁ with aggregations := st₁.aggregations ++ [AggElem.mk (some e₁) none op.toOp sym] }
    { st₂ with has_aggregation := true :: st₂.has_aggregation.tail }
  | st, .aggrCollectMap e₁ e₂ sym =>
    let st₂ := visitExpr (visitExpr st e₁) e₂
    let st₃ := { st₂ with
      aggregations := st₂.aggregations ++ [AggElem.mk (some e₁) (some e₂) .collectMap sym],
      has_aggregation := st₂.has_aggregation.tail }
    { st₃ with has_aggregation := true :: st₃.has_aggregation.tail }

/-- Visit a list of expressions left to right (child order). -/
def visitList : ClassifierState → List Expr → ClassifierState
  | st, [] => st
  | st, e :: es => visitList (visitExpr st e) es

end

/-- Visit of a `NamedExpression`: visit the child, then, when its
subtree contains no aggregation, push the child expression to
`group_by`; pop the single remaining flag. -/
def visitNamed (st : ClassifierState) (ne : NamedExpr) : ClassifierState :=
  let st₁ := visitExpr st ne.expr
  let top := st₁.has_aggregation.headD false
  let st₂ :=
    if top then st₁
    else { st₁ with group_by := st₁.group_by ++ [ne.expr] }
  { st₂ with has_aggregation := st₂.has_aggregation.tail }

mutual

/-- Whether an expression's subtree contains an aggregation: the flag
the visitor leaves on top of the `has_aggregation_` stack. -/
def hasAggFlag : Expr → Bool
  | .lit => false
  | .param => false
  | .ident _ => false
  | .binop _ e₁ e₂ => hasAggFlag e₁ || hasAggFlag e₂
  | .fn args => anyAggFlag args
  | .listLit elems => anyAggFlag elems
  | .mapLit elems => anyAggFlag elems
  | .aggrCountStar _ => true
  | .aggr _ _ _ => true
  | .aggrCollectMap _ _ _ => true

/-- Whether any expression of a list contains an aggregation. -/
def anyAggFlag : List Expr → Bool
  | [] => false
  | e :: es => hasAggFlag e || anyAggFlag es

end

/-- Sort direction of an ORDER BY pair. -/
inductive OrderingKind where
  | asc
  | desc
deriving DecidableEq, Repr

/-- The `ReturnBody` of a WITH or RETURN clause. -/
structure ReturnBody where
  distinct : Bool
  named_expressions : List NamedExpr
  order_by : List (OrderingKind × Expr)
  skip : Option Expr
  limit : Option Expr
  all_identifiers : Bool
deriving Repr

/-- Name order on symbols used by `ExpandUserSymbols` when sorting
`output_symbols_` (`a.name() < b.name()` comparator of `std::sort`,
whose result is sorted under the reflexive closure). -/
def symNameLe (a b : Symbol) : Prop := a.name ≤ b.name

instance : DecidableRel symNameLe := fun a b =>
  inferInstanceAs (Decidable (a.name ≤ b.name))

/-- Name order on named expressions used by `ExpandUserSymbols` when
sorting `named_expressions_`. -/
def neNameLe (a b : NamedExpr) : Prop := a.name ≤ b.name

instance : DecidableRel neNameLe := fun a b =>
  inferInstanceAs (Decidable (a.name ≤ b.name))

/-- The fresh named expression `ExpandUserSymbols` creates for a
user-declared symbol: an identifier bound to the symbol, named after
the symbol. -/
def expandedNamedExpr (s : Symbol) : NamedExpr :=
  NamedExpr.mk s.name (Expr.ident s) s

/-- Embedding of `ReturnBodyContext::ExpandUserSymbols`: iterate the
bound-symbol set, keep user-declared symbols only, and for each create
a fresh identifier and named expression; record them in
`named_expressions_`, `output_symbols_`, `used_symbols_` and
`group_by_`; finally sort `output_symbols_` and `named_expressions_`
ascending by name. -/
def expandUserSymbols (bound : List Symbol) : ClassifierState :=
  let uds := bound.filter (fun s => s.user_declared)
  { used_symbols := insertAll [] uds
    output_symbols := List.insertionSort symNameLe uds
    aggregations := []
    group_by := uds.map Expr.ident
    has_aggregation := []
    named_expressions := List.insertionSort neNameLe (uds.map expandedNamedExpr) }

/-- One iteration of the named-expression loop of the
`ReturnBodyContext` constructor: record the output symbol first (so
the identifier visitor sees it), visit the named expression, then
record it in `named_expressions_`. -/
def namedExprVisit (st : ClassifierState) (ne : NamedExpr) : ClassifierState :=
  let st₁ := { st with output_symbols := st.output_symbols ++ [ne.sym] }
  let st₂ := visitNamed st₁ ne
  { st₂ with named_expressions := st₂.named_expressions ++ [ne] }

/-- The named-expression phase of the `ReturnBodyContext` constructor:
optional `RETURN *` expansion followed by visiting every named
expression of the body in order. -/
def namedExprPhase (body : ReturnBody) (bound : List Symbol) : ClassifierState :=
  let st₀ := if body.all_identifiers then expandUserSymbols bound else ClassifierState.empty
  body.named_expressions.foldl namedExprVisit st₀

/-- The collected context a `ReturnBodyContext` exposes through its
accessors after construction. -/
structure ReturnBodyCtx where
  distinct : Bool
  named_expressions : List NamedExpr
  order_by : List (OrderingKind × Expr)
  skip : Option Expr
  limit : Option Expr
  whereExpr : Option Expr
  used_symbols : List Symbol
  output_symbols : List Symbol
  aggregations : List AggElem
  group_by : List Expr
deriving Repr

/-- Embedding of the `ReturnBodyContext` constructor: run the
named-expression phase, then — only when no aggregation was
collected — visit the ORDER BY expressions and the WHERE expression
as well. -/
def mkReturnBodyContext (body : ReturnBody) (bound : List Symbol)
    (whereExpr : Option Expr) : ReturnBodyCtx :=
  let st₁ := namedExprPhase body bound
  let st₂ :=
    if st₁.aggregations.isEmpty then
      let sto := body.order_by.foldl (fun st ob => visitExpr st ob.2) st₁
      match whereExpr with
      | some w => visitExpr sto w
      | none => sto
    else st₁
  { distinct := body.distinct
    named_expressions := st₂.named_expressions
    order_by := body.order_by
    skip := body.skip
    limit := body.limit
    whereExpr := whereExpr
    used_symbols := st₂.used_symbols
    output_symbols := st₂.output_symbols
    aggregations := st₂.aggregations
    group_by := st₂.group_by }

/-- Logical operators emitted by the planner fragment under study.
Each operator owns its input child; `once` stands for an opaque input
tail. -/
inductive LogicalOperator where
  | once
  | accumulate (inp : LogicalOperator) (symbols : List Symbol) (advance_command : Bool)
  | aggregate (inp : LogicalOperator) (aggs : List AggElem) (group_by : List Expr)
      (remember : List Symbol)
  | produce (inp : LogicalOperator) (named_exprs : List NamedExpr)
  | distinct (inp : LogicalOperator) (value_syms : List Symbol)
  | orderBy (inp : LogicalOperator) (order : List (OrderingKind × Expr))
      (output_syms : List Symbol)
  | skip (inp : LogicalOperator) (e : Expr)
  | limit (inp : LogicalOperator) (e : Expr)
  | filter (inp : LogicalOperator) (e : Expr)
  | constructNamedPath (inp : LogicalOperator) (path_sym : Symbol)
      (path_elements : List Symbol)
  | createNode (node_sym : Symbol) (inp : LogicalOperator)
  | createExpand (node_sym edge_sym : Symbol) (inp : LogicalOperator)
      (input_symbol : Symbol) (node_existing : Bool)
deriving Repr

/-- Embedding of `GenReturnBody`: thread the operators bottom-up in
source order — Accumulate, Aggregate, Produce, Distinct, OrderBy,
Skip, Limit, Filter. -/
def GenReturnBody (input_op : LogicalOperator) (advance_command : Bool)
    (body : ReturnBodyCtx) (accumulate : Bool) : LogicalOperator :=
  let used := body.used_symbols
  let op₁ :=
    if accumulate then LogicalOperator.accumulate input_op used advance_command
    else input_op
  let op₂ :=
    if !body.aggregations.isEmpty then
      LogicalOperator.aggregate op₁ body.aggregations body.group_by used
    else op₁
  let op₃ := LogicalOperator.produce op₂ body.named_expressions
  let op₄ :=
    if body.distinct then LogicalOperator.distinct op₃ body.output_symbols
    else op₃
  let op₅ :=
    if !body.order_by.isEmpty then
      LogicalOperator.orderBy op₄ body.order_by body.output_symbols
    else op₄
  let op₆ :=
    match body.skip with
    | some e => LogicalOperator.skip op₅ e
    | none => op₅
  let op₇ :=
    match body.limit with
    | some e => LogicalOperator.limit op₆ e
    | none => op₆
  match body.whereExpr with
  | some w => LogicalOperator.filter op₇ w
  | none => op₇

/-- A return-body pipeline stage without its input child; used to
state in which order `GenReturnBody` stacks operators onto its input. -/
inductive OpLayer where
  | accumulateL (symbols : List Symbol) (advance_command : Bool)
  | aggregateL (aggs : List AggElem) (group_by : List Expr) (remember : List Symbol)
  | produceL (named_exprs : List NamedExpr)
  | distinctL (value_syms : List Symbol)
  | orderByL (order : List (OrderingKind × Expr)) (output_syms : List Symbol)
  | skipL (e : Expr)
  | limitL (e : Expr)
  | filterL (e : Expr)
deriving Repr

/-- Attach one pipeline stage on top of an operator. -/
def applyLayer (op : LogicalOperator) : OpLayer → LogicalOperator
  | .accumulateL syms adv => .accumulate op syms adv
  | .aggregateL aggs gb rem => .aggregate op aggs gb rem
  | .produceL nes => .produce op nes
  | .distinctL syms => .distinct op syms
  | .orderByL ob syms => .orderBy op ob syms
  | .skipL e => .skip op e
  | .limitL e => .limit op e
  | .filterL e => .filter op e

/-- Attach a list of pipeline stages on top of an operator; the head
of the list becomes the topmost operator. -/
def applyLayers (layers : List OpLayer) (op : LogicalOperator) : LogicalOperator :=
  layers.foldr (fun l acc => applyLayer acc l) op

/-- The stage list the spec prescribes for a return body, topmost
first: Filter, Limit, Skip, OrderBy, Distinct, Produce, Aggregate,
Accumulate, each conditional stage present iff its condition holds. -/
def returnBodyLayers (advance_command : Bool) (body : ReturnBodyCtx)
    (accumulate : Bool) : List OpLayer :=
  (match body.whereExpr with
    | some w => [OpLayer.filterL w]
    | none => []) ++
  (match body.limit with
    | some e => [OpLayer.limitL e]
    | none => []) ++
  (match body.skip with
    | some e => [OpLayer.skipL e]
    | none => []) ++
  (if !body.order_by.isEmpty then [OpLayer.orderByL body.order_by body.output_symbols] else []) ++
  (if body.distinct then [OpLayer.distinctL body.output_symbols] else []) ++
  [OpLayer.produceL body.named_expressions] ++
  (if !body.aggregations.isEmpty then
     [OpLayer.aggregateL body.aggregations body.group_by body.used_symbols]
   else []) ++
  (if accumulate then [OpLayer.accumulateL body.used_symbols advance_command] else [])

/-- A RETURN clause. -/
structure Return where
  body : ReturnBody

/-- A WITH clause with its optional WHERE. -/
structure With where
  body : ReturnBody
  whereExpr : Option Expr

/-- Embedding of `impl::GenReturn`: accumulate iff the query wrote,
never advance the command. -/
def GenReturn (ret : Return) (input_op : LogicalOperator) (is_write : Bool)
    (bound : List Symbol) : LogicalOperator :=
  let accumulate := is_write
  let advance_command := false
  let body := mkReturnBodyContext ret.body bound none
  GenReturnBody input_op advance_command body accumulate

/-- Embedding of `impl::GenWith`: accumulate and advance the command
iff the query wrote; afterwards reset the bound-symbol set to exactly
the output symbols of the body. -/
def GenWith (w : With) (input_op : LogicalOperator) (is_write : Bool)
    (bound : List Symbol) : LogicalOperator × List Symbol :=
  let accumulate := is_write
  let advance_command := is_write
  let body := mkReturnBodyContext w.body bound w.whereExpr
  let last_op := GenReturnBody input_op advance_command body accumulate
  let newBound := insertAll [] body.output_symbols
  (last_op, newBound)

/-- A stored filter: its expression and the symbols it uses
(`FilterInfo`). -/
structure FilterInfo where
  expression : Expr
  used_symbols : List Symbol

/-- Embedding of `HasBoundFilterSymbols`: every symbol the filter uses
is bound. -/
def HasBoundFilterSymbols (bound : List Symbol) (f : FilterInfo) : Bool :=
  f.used_symbols.all fun s => decide (s ∈ bound)

/-- Modelled from the spec: `impl::BoolJoin<AndOperator>` is declared
in `rule_based_planner.hpp`, which is not among the given sources; per
the spec, qualifying filters are "AND-join(ed) (into a single
predicate)" in source order.  Joining an absent accumulator with `e`
yields `e`; joining `some a` with `e` yields the conjunction
`a AND e`. -/
def BoolJoin (e₁ : Option Expr) (e₂ : Expr) : Option Expr :=
  match e₁ with
  | none => some e₂
  | some a => some (Expr.binop .andOp a e₂)

/-- Left-to-right AND-join of a list of expressions onto an
accumulator. -/
def andJoinAcc (acc : Option Expr) : List Expr → Option Expr
  | [] => acc
  | e :: es => andJoinAcc (BoolJoin acc e) es

/-- The loop of `impl::ExtractFilters`, with the accumulated predicate
and the filters kept so far made explicit. -/
def extractFiltersGo (bound : List Symbol) (acc : Option Expr)
    (kept : List FilterInfo) : List FilterInfo → Option Expr × List FilterInfo
  | [] => (acc, kept)
  | f :: fs =>
    if HasBoundFilterSymbols bound f then
      extractFiltersGo bound (BoolJoin acc f.expression) kept fs
    else
      extractFiltersGo bound acc (kept ++ [f]) fs

/-- Embedding of `impl::ExtractFilters`: erase every stored filter
whose used symbols are all bound, AND-joining their expressions in
list order; return the joined predicate and the remaining filters. -/
def ExtractFilters (bound : List Symbol) (filters : List FilterInfo) :
    Option Expr × List FilterInfo :=
  extractFiltersGo bound none [] filters

/-- Embedding of `impl::GenNamedPaths`: walk the pending named paths;
whenever all atom symbols of a path are bound, emit
`ConstructNamedPath`, bind the path symbol and drop the entry,
otherwise keep it pending. -/
def GenNamedPaths : LogicalOperator → List Symbol → List (Symbol × List Symbol) →
    LogicalOperator × List Symbol × List (Symbol × List Symbol)
  | last_op, bound, [] => (last_op, bound, [])
  | last_op, bound, (p, atoms) :: rest =>
    if allAreBound bound atoms then
      GenNamedPaths (LogicalOperator.constructNamedPath last_op p atoms)
        ((insertSym bound p).1) rest
    else
      let r := GenNamedPaths last_op bound rest
      (r.1, r.2.1, (p, atoms) :: r.2.2)

/-- A node atom with its resolved identifier symbol. -/
structure NodeAtom where
  sym : Symbol
deriving DecidableEq, Repr

/-- An edge atom with its resolved identifier symbol. -/
structure EdgeAtom where
  sym : Symbol
deriving DecidableEq, Repr

/-- A pattern `NodeAtom (EdgeAtom NodeAtom)*` with its pattern
identifier's symbol and user-declared flag. -/
structure Pattern where
  path_sym : Symbol
  user_declared : Bool
  first : NodeAtom
  rest : List (EdgeAtom × NodeAtom)
deriving Repr

/-- The symbols of all atoms of a pattern, in pattern order. -/
def patternAtomSyms (p : Pattern) : List Symbol :=
  p.first.sym :: p.rest.foldr (fun en acc => en.1.sym :: en.2.sym :: acc) []

/-- The loop of `ReducePattern`: fold `collect` over the
`(EdgeAtom, NodeAtom)` triples, threading the previous node. -/
def reduceGo {T : Type} (collect : T → NodeAtom → EdgeAtom → NodeAtom → T) :
    T → NodeAtom → List (EdgeAtom × NodeAtom) → T
  | acc, _, [] => acc
  | acc, prev, (e, n) :: rest => reduceGo collect (collect acc prev e n) n rest

/-- Embedding of `ReducePattern`: call `base` on the first node, then
`collect` on every `(prev, edge, node)` triple. -/
def ReducePattern {T : Type} (p : Pattern) (base : NodeAtom → T)
    (collect : T → NodeAtom → EdgeAtom → NodeAtom → T) : T :=
  reduceGo collect (base p.first) p.first p.rest

/-- Process aborts of the planner; `logFatal` models `LOG(FATAL)`,
which terminates the process. -/
inductive PlanAbort where
  | logFatal (msg : String)
deriving DecidableEq, Repr

/-- The `base` lambda of `GenCreateForPattern`: if the first node's
symbol is newly bound, emit `CreateNode` above the input, otherwise
pass the input through. -/
def createBase (input_op : LogicalOperator) (bound : List Symbol)
    (node : NodeAtom) : Except PlanAbort (LogicalOperator × List Symbol) :=
  let (bound', inserted) := insertSym bound node.sym
  if inserted then
    Except.ok (LogicalOperator.createNode node.sym input_op, bound')
  else
    Except.ok (input_op, bound')

/-- The `collect` lambda of `GenCreateForPattern`: take the previous
node's symbol as input symbol, mark the next node existing iff its
symbol was already bound, and `LOG(FATAL)` when the edge symbol was
already bound. -/
def createCollect (acc : Except PlanAbort (LogicalOperator × List Symbol))
    (prev : NodeAtom) (edge : EdgeAtom) (node : NodeAtom) :
    Except PlanAbort (LogicalOperator × List Symbol) :=
  match acc with
  | .error e => .error e
  | .ok (last_op, bound) =>
    let input_symbol := prev.sym
    let (bound₁, nodeNew) := insertSym bound node.sym
    let node_existing := !nodeNew
    let (bound₂, edgeNew) := insertSym bound₁ edge.sym
    if edgeNew then
      .ok (LogicalOperator.createExpand node.sym edge.sym last_op input_symbol
             node_existing, bound₂)
    else
      .error (PlanAbort.logFatal "Symbols used for created edges cannot be redeclared.")

/-- Embedding of `impl::GenCreateForPattern`: reduce the pattern with
`createBase` and `createCollect`, then, if the pattern identifier is
user-declared, append `ConstructNamedPath` over all atom symbols. -/
def GenCreateForPattern (p : Pattern) (input_op : LogicalOperator)
    (bound : List Symbol) : Except PlanAbort (LogicalOperator × List Symbol) :=
  match ReducePattern p (createBase input_op bound) createCollect with
  | .error e => .error e
  | .ok (last_op, bound') =>
    if p.user_declared then
      .ok (LogicalOperator.constructNamedPath last_op p.path_sym (patternAtomSyms p),
           bound')
    else
      .ok (last_op, bound')

/-! Basic lemmas about the symbol-set model. -/

theorem mem_insertSym {b : List Symbol} {t s : Symbol} :
    s ∈ (insertSym b t).1 ↔ s ∈ b ∨ s = t := by
  by_cases h : t ∈ b <;> simp [insertSym, h]
  intro heq
  rw [heq]
  exact h

theorem mem_insertAll {syms : List Symbol} {b : List Symbol} {s : Symbol} :
    s ∈ insertAll b syms ↔ s ∈ b ∨ s ∈ syms := by
  induction syms generalizing b with
  | nil => simp [insertAll]
  | cons t ts ih =>
    simp only [insertAll, List.foldl_cons] at ih ⊢
    rw [ih]
    rw [mem_insertSym]
    simp [or_assoc, or_comm, or_left_comm]

theorem allAreBound_iff {bound atoms : List Symbol} :
    allAreBound bound atoms = true ↔ ∀ s ∈ atoms, s ∈ bound := by
  simp [allAreBound]

theorem allAreBound_insertSym_of_not_mem {bound : List Symbol} {p : Symbol}
    {atoms : List Symbol} :
    p ∉ atoms → allAreBound ((insertSym bound p).1) atoms = allAreBound bound atoms := by
  induction atoms with
  | nil => intro h; simp [allAreBound]
  | cons a as ih =>
    intro h
    have hne : a ≠ p := fun hap => h (by rw [← hap]; exact List.mem_cons_self a as)
    have h' : p ∉ as := fun hp => h (List.mem_cons_of_mem _ hp)
    simp only [allAreBound, List.all_cons] at ih ⊢
    rw [ih h']
    have hd : decide (a ∈ (insertSym bound p).1) = decide (a ∈ bound) := by
      rw [decide_eq_decide, mem_insertSym]
      constructor
      · rintro (hm | hm)
        · exact hm
        · exact absurd hm hne
      · exact Or.inl
    rw [hd]

/-! Structural lemmas about the classifier visitor's
`has_aggregation_` stack. -/

theorem anyAggFlag_eq_any (es : List Expr) : anyAggFlag es = es.any hasAggFlag := by
  induction es with
  | nil => simp [anyAggFlag]
  | cons e es ih => simp [anyAggFlag, ih]

theorem any_id_reverse_map_hasAggFlag (es : List Expr) :
    ((es.map hasAggFlag).reverse).any id = anyAggFlag es := by
  rw [List.any_reverse]
  induction es with
  | nil => simp [anyAggFlag]
  | cons e es ih => simp [anyAggFlag, ih]

mutual

/-- Visiting one expression pushes exactly its aggregation flag onto
the `has_aggregation_` stack, leaving the rest of the stack intact. -/
theorem visitExpr_stack : ∀ (st : ClassifierState) (e : Expr),
    (visitExpr st e).has_aggregation = hasAggFlag e :: st.has_aggregation
  | st, .lit => by simp [visitExpr, hasAggFlag, ClassifierState.pushFlag]
  | st, .param => by simp [visitExpr, hasAggFlag, ClassifierState.pushFlag]
  | st, .ident s => by
    by_cases h : s ∈ st.output_symbols <;>
      simp [visitExpr, hasAggFlag, ClassifierState.pushFlag, h]
  | st, .binop k e₁ e₂ => by
    have h₁ := visitExpr_stack st e₁
    have h₂ := visitExpr_stack (visitExpr st e₁) e₂
    simp [visitExpr, hasAggFlag, h₁, h₂]
  | st, .fn args => by
    have h := visitList_stack st args
    have hlen : ((args.map hasAggFlag).reverse).length = args.length := by simp
    simp only [visitExpr, hasAggFlag, h]
    rw [← hlen, List.take_left, List.drop_left, any_id_reverse_map_hasAggFlag]
  | st, .listLit elems => by
    have h := visitList_stack st elems
    have hlen : ((elems.map hasAggFlag).reverse).length = elems.length := by simp
    simp only [visitExpr, hasAggFlag, h]
    rw [← hlen, List.take_left, List.drop_left, any_id_reverse_map_hasAggFlag]
  | st, .mapLit elems => by
    have h := visitList_stack st elems
    have hlen : ((elems.map hasAggFlag).reverse).length = elems.length := by simp
    simp only [visitExpr, hasAggFlag, h]
    rw [← hlen, List.take_left, List.drop_left, any_id_reverse_map_hasAggFlag]
  | st, .aggrCountStar sym => by
    simp [visitExpr, hasAggFlag, ClassifierState.pushFlag]
  | st, .aggr e₁ op sym => by
    have h₁ := visitExpr_stack st e₁
    simp [visitExpr, hasAggFlag, h₁]
  | st, .aggrCollectMap e₁ e₂ sym => by
    have h₁ := visitExpr_stack st e₁
    have h₂ := visitExpr_stack (visitExpr st e₁) e₂
    simp [visitExpr, hasAggFlag, h₁, h₂]

/-- Visiting a list of expressions pushes one flag per element. -/
theorem visitList_stack : ∀ (st : ClassifierState) (es : List Expr),
    (visitList st es).has_aggregation =
      (es.map hasAggFlag).reverse ++ st.has_aggregation
  | st, [] => by simp [visitList]
  | st, e :: es => by
    have h₁ := visitExpr_stack st e
    have h₂ := visitList_stack (visitExpr st e) es
    simp [visitList, h₂, h₁]

end

/-! Concrete symbols for witnesses and counterexamples. -/

/-- A user-declared node symbol named `n`. -/
def symN : Symbol := ⟨"n", 0, .node, true⟩

/-- A user-declared node symbol named `m`. -/
def symM : Symbol := ⟨"m", 1, .node, true⟩

/-- A compiler-generated expression symbol for an aggregation result. -/
def symAgg : Symbol := ⟨"agg1", 2, .expression, false⟩

/-- A user-declared edge symbol named `e`. -/
def symE : Symbol := ⟨"e", 3, .edge, true⟩

/-- A user-declared node symbol named `b`. -/
def symB : Symbol := ⟨"b", 4, .node, true⟩

/-- A user-declared path symbol named `p`. -/
def symP : Symbol := ⟨"p", 5, .path, true⟩

/-- A user-declared path symbol named `q`. -/
def symQ : Symbol := ⟨"q", 6, .path, true⟩

/-- The expression refuting C4: a function call whose first argument
contains an aggregation and whose second argument (a bare identifier)
does not. -/
def c4Expr : Expr :=
  Expr.fn [Expr.aggr (Expr.ident symN) .sum symAgg, Expr.ident symM]

/-- C4 counterexample: on `fn(sum(n), m)` the combined flag is true
and the child `m` has a false flag, yet `PostVisit(Function&)` appends
nothing to `group_by` — refuting the claim that every composite
expression (including function calls, list literals and map literals)
pushes its false-flagged children into the group-by list. -/
theorem c4_counterexample :
    hasAggFlag c4Expr = true
    ∧ hasAggFlag (Expr.ident symM) = false
    ∧ (visitExpr ClassifierState.empty c4Expr).group_by = [] :=
  ⟨rfl, rfl, rfl⟩

/-- C4 (amended): after popping one flag per child and OR-ing them,
only the sixteen binary operators append a false-flagged child to
`group_by` (the child lacking an aggregation, when the other has one);
function calls, list literals and map literals only combine the flags
and never append to `group_by`. -/
theorem c4_amended_group_by (st : ClassifierState) :
    (∀ (k : BinOp) (e₁ e₂ : Expr),
      (visitExpr st (Expr.binop k e₁ e₂)).group_by =
        (visitExpr (visitExpr st e₁) e₂).group_by ++
          (if (hasAggFlag e₁ || hasAggFlag e₂) && !(hasAggFlag e₁ && hasAggFlag e₂) then
            [if hasAggFlag e₁ then e₂ else e₁]
          else []))
    ∧ (∀ args, (visitExpr st (Expr.fn args)).group_by = (visitList st args).group_by)
    ∧ (∀ elems, (visitExpr st (Expr.listLit elems)).group_by = (visitList st elems).group_by)
    ∧ (∀ elems, (visitExpr st (Expr.mapLit elems)).group_by = (visitList st elems).group_by) := by
  refine ⟨?_, ?_, ?_, ?_⟩
  · intro k e₁ e₂
    have h₁ := visitExpr_stack st e₁
    have h₂ := visitExpr_stack (visitExpr st e₁) e₂
    simp [visitExpr, h₁, h₂]
    split <;> simp_all
  · intro args
    simp [visitExpr]
  · intro elems
    simp [visitExpr]
  · intro elems
    simp [visitExpr]

/-! Lemmas for filter extraction (C3). -/

theorem andJoinAcc_isSome (a : Expr) (es : List Expr) :
    ∃ r, andJoinAcc (some a) es = some r := by
  induction es generalizing a with
  | nil => exact ⟨a, rfl⟩
  | cons e es ih => exact ih (Expr.binop .andOp a e)

theorem andJoinAcc_none_iff (es : List Expr) :
    andJoinAcc none es = none ↔ es = [] := by
  cases es with
  | nil => simp [andJoinAcc]
  | cons e es =>
    simp only [andJoinAcc, BoolJoin]
    obtain ⟨r, hr⟩ := andJoinAcc_isSome e es
    simp [hr]

theorem extractFiltersGo_spec (bound : List Symbol) :
    ∀ (fs : List FilterInfo) (acc : Option Expr) (kept : List FilterInfo),
      extractFiltersGo bound acc kept fs =
        (andJoinAcc acc
           ((fs.filter fun f => HasBoundFilterSymbols bound f).map FilterInfo.expression),
         kept ++ fs.filter fun f => !HasBoundFilterSymbols bound f) := by
  intro fs
  induction fs with
  | nil => intro acc kept; simp [extractFiltersGo, andJoinAcc]
  | cons f fs ih =>
    intro acc kept
    cases h : HasBoundFilterSymbols bound f with
    | true => simp [extractFiltersGo, h, ih, andJoinAcc, List.filter_cons]
    | false => simp [extractFiltersGo, h, ih, List.filter_cons, List.append_assoc]

/-- C3: `ExtractFilters` removes exactly the stored filters whose used
symbols are all bound, AND-joins their expressions in list order into
one predicate, keeps every other filter unchanged and in order, and
returns no predicate iff no stored filter qualified. -/
theorem extractFilters_spec (bound : List Symbol) (filters : List FilterInfo) :
    ExtractFilters bound filters =
      (andJoinAcc none
         ((filters.filter fun f => HasBoundFilterSymbols bound f).map FilterInfo.expression),
       filters.filter fun f => !HasBoundFilterSymbols bound f)
    ∧ ((ExtractFilters bound filters).1 = none ↔
       ∀ f ∈ filters, ¬ HasBoundFilterSymbols bound f) := by
  have h := extractFiltersGo_spec bound filters none []
  constructor
  · simpa [ExtractFilters] using h
  · rw [ExtractFilters, h]
    simp only
    rw [andJoinAcc_none_iff, List.map_eq_nil_iff, List.filter_eq_nil_iff]

/-- C2: after `GenWith`, the bound-symbol set holds exactly the output
symbols of the WITH's return body — previously bound symbols outside
the output list are gone and every output symbol is present. -/
theorem genWith_bound_reset (w : With) (input_op : LogicalOperator)
    (is_write : Bool) (bound : List Symbol) (s : Symbol) :
    s ∈ (GenWith w input_op is_write bound).2 ↔
      s ∈ (mkReturnBodyContext w.body bound w.whereExpr).output_symbols := by
  simp [GenWith, mem_insertAll]

/-! Layer discriminators and pipeline-order lemmas (C1, C6). -/

/-- Whether a stage is an Accumulate. -/
def isAccumulateL : OpLayer → Bool
  | .accumulateL _ _ => true
  | _ => false

/-- Whether a stage is an Aggregate. -/
def isAggregateL : OpLayer → Bool
  | .aggregateL _ _ _ => true
  | _ => false

/-- Whether a stage is a Produce. -/
def isProduceL : OpLayer → Bool
  | .produceL _ => true
  | _ => false

/-- Whether a stage is a Distinct. -/
def isDistinctL : OpLayer → Bool
  | .distinctL _ => true
  | _ => false

/-- Whether a stage is an OrderBy. -/
def isOrderByL : OpLayer → Bool
  | .orderByL _ _ => true
  | _ => false

/-- Whether a stage is a Skip. -/
def isSkipL : OpLayer → Bool
  | .skipL _ => true
  | _ => false

/-- Whether a stage is a Limit. -/
def isLimitL : OpLayer → Bool
  | .limitL _ => true
  | _ => false

/-- Whether a stage is a Filter. -/
def isFilterL : OpLayer → Bool
  | .filterL _ => true
  | _ => false

theorem genReturnBody_eq_layers (input_op : LogicalOperator) (adv : Bool)
    (b : ReturnBodyCtx) (acc : Bool) :
    GenReturnBody input_op adv b acc = applyLayers (returnBodyLayers adv b acc) input_op := by
  rcases b with ⟨d, nes, ob, sk, lim, wh, us, os, ags, gb⟩
  cases wh <;> cases lim <;> cases sk <;> cases d <;> cases acc <;> cases ob <;> cases ags <;>
    simp [GenReturnBody, returnBodyLayers, applyLayers, applyLayer]

theorem layers_any_accumulate (adv : Bool) (b : ReturnBodyCtx) (acc : Bool) :
    (returnBodyLayers adv b acc).any isAccumulateL = acc := by
  rcases b with ⟨d, nes, ob, sk, lim, wh, us, os, ags, gb⟩
  cases wh <;> cases lim <;> cases sk <;> cases d <;> cases acc <;> cases ob <;> cases ags <;>
    simp [returnBodyLayers, isAccumulateL, isAggregateL, isProduceL, isDistinctL,
      isOrderByL, isSkipL, isLimitL, isFilterL]

theorem layers_any_aggregate (adv : Bool) (b : ReturnBodyCtx) (acc : Bool) :
    (returnBodyLayers adv b acc).any isAggregateL = !b.aggregations.isEmpty := by
  rcases b with ⟨d, nes, ob, sk, lim, wh, us, os, ags, gb⟩
  cases wh <;> cases lim <;> cases sk <;> cases d <;> cases acc <;> cases ob <;> cases ags <;>
    simp [returnBodyLayers, isAccumulateL, isAggregateL, isProduceL, isDistinctL,
      isOrderByL, isSkipL, isLimitL, isFilterL]

theorem layers_any_produce (adv : Bool) (b : ReturnBodyCtx) (acc : Bool) :
    (returnBodyLayers adv b acc).any isProduceL = true := by
  rcases b with ⟨d, nes, ob, sk, lim, wh, us, os, ags, gb⟩
  cases wh <;> cases lim <;> cases sk <;> cases d <;> cases acc <;> cases ob <;> cases ags <;>
    simp [returnBodyLayers, isAccumulateL, isAggregateL, isProduceL, isDistinctL,
      isOrderByL, isSkipL, isLimitL, isFilterL]

theorem layers_any_distinct (adv : Bool) (b : ReturnBodyCtx) (acc : Bool) :
    (returnBodyLayers adv b acc).any isDistinctL = b.distinct := by
  rcases b with ⟨d, nes, ob, sk, lim, wh, us, os, ags, gb⟩
  cases wh <;> cases lim <;> cases sk <;> cases d <;> cases acc <;> cases ob <;> cases ags <;>
    simp [returnBodyLayers, isAccumulateL, isAggregateL, isProduceL, isDistinctL,
      isOrderByL, isSkipL, isLimitL, isFilterL]

theorem layers_any_orderBy (adv : Bool) (b : ReturnBodyCtx) (acc : Bool) :
    (returnBodyLayers adv b acc).any isOrderByL = !b.order_by.isEmpty := by
  rcases b with ⟨d, nes, ob, sk, lim, wh, us, os, ags, gb⟩
  cases wh <;> cases lim <;> cases sk <;> cases d <;> cases acc <;> cases ob <;> cases ags <;>
    simp [returnBodyLayers, isAccumulateL, isAggregateL, isProduceL, isDistinctL,
      isOrderByL, isSkipL, isLimitL, isFilterL]

theorem layers_any_skip (adv : Bool) (b : ReturnBodyCtx) (acc : Bool) :
    (returnBodyLayers adv b acc).any isSkipL = b.skip.isSome := by
  rcases b with ⟨d, nes, ob, sk, lim, wh, us, os, ags, gb⟩
  cases wh <;> cases lim <;> cases sk <;> cases d <;> cases acc <;> cases ob <;> cases ags <;>
    simp [returnBodyLayers, isAccumulateL, isAggregateL, isProduceL, isDistinctL,
      isOrderByL, isSkipL, isLimitL, isFilterL]

theorem layers_any_limit (adv : Bool) (b : ReturnBodyCtx) (acc : Bool) :
    (returnBodyLayers adv b acc).any isLimitL = b.limit.isSome := by
  rcases b with ⟨d, nes, ob, sk, lim, wh, us, os, ags, gb⟩
  cases wh <;> cases lim <;> cases sk <;> cases d <;> cases acc <;> cases ob <;> cases ags <;>
    simp [returnBodyLayers, isAccumulateL, isAggregateL, isProduceL, isDistinctL,
      isOrderByL, isSkipL, isLimitL, isFilterL]

theorem layers_any_filter (adv : Bool) (b : ReturnBodyCtx) (acc : Bool) :
    (returnBodyLayers adv b acc).any isFilterL = b.whereExpr.isSome := by
  rcases b with ⟨d, nes, ob, sk, lim, wh, us, os, ags, gb⟩
  cases wh <;> cases lim <;> cases sk <;> cases d <;> cases acc <;> cases ob <;> cases ags <;>
    simp [returnBodyLayers, isAccumulateL, isAggregateL, isProduceL, isDistinctL,
      isOrderByL, isSkipL, isLimitL, isFilterL]

theorem layers_filter_topmost (adv : Bool) (b : ReturnBodyCtx) (acc : Bool)
    (w : Expr) (hw : b.whereExpr = some w) :
    (returnBodyLayers adv b acc).head? = some (OpLayer.filterL w) := by
  rcases b with ⟨d, nes, ob, sk, lim, wh, us, os, ags, gb⟩
  cases wh with
  | none => simp at hw
  | some w' =>
    simp only [ReturnBodyCtx.whereExpr, Option.some.injEq] at hw
    subst hw
    simp [returnBodyLayers]

theorem layers_accumulate_advance (adv : Bool) (b : ReturnBodyCtx) (acc : Bool)
    (syms : List Symbol) (a : Bool)
    (h : OpLayer.accumulateL syms a ∈ returnBodyLayers adv b acc) : a = adv := by
  rcases b with ⟨d, nes, ob, sk, lim, wh, us, os, ags, gb⟩
  cases wh <;> cases lim <;> cases sk <;> cases d <;> cases acc <;> cases ob <;> cases ags <;>
    simp_all [returnBodyLayers]

/-- C1: `GenReturnBody` stacks onto its input exactly the stage list
Accumulate (iff accumulating), Aggregate (iff aggregations nonempty),
Produce (always), Distinct (iff distinct), OrderBy (iff order-by
nonempty), Skip (iff SKIP present), Limit (iff LIMIT present), Filter
(iff WHERE present) — bottom-up in that order, with Filter topmost. -/
theorem genReturnBody_pipeline (input_op : LogicalOperator) (adv : Bool)
    (b : ReturnBodyCtx) (acc : Bool) :
    GenReturnBody input_op adv b acc = applyLayers (returnBodyLayers adv b acc) input_op
    ∧ (returnBodyLayers adv b acc).any isAccumulateL = acc
    ∧ (returnBodyLayers adv b acc).any isAggregateL = !b.aggregations.isEmpty
    ∧ (returnBodyLayers adv b acc).any isProduceL = true
    ∧ (returnBodyLayers adv b acc).any isDistinctL = b.distinct
    ∧ (returnBodyLayers adv b acc).any isOrderByL = !b.order_by.isEmpty
    ∧ (returnBodyLayers adv b acc).any isSkipL = b.skip.isSome
    ∧ (returnBodyLayers adv b acc).any isLimitL = b.limit.isSome
    ∧ (returnBodyLayers adv b acc).any isFilterL = b.whereExpr.isSome
    ∧ (∀ w, b.whereExpr = some w →
        (returnBodyLayers adv b acc).head? = some (OpLayer.filterL w)) :=
  ⟨genReturnBody_eq_layers input_op adv b acc,
   layers_any_accumulate adv b acc,
   layers_any_aggregate adv b acc,
   layers_any_produce adv b acc,
   layers_any_distinct adv b acc,
   layers_any_orderBy adv b acc,
   layers_any_skip adv b acc,
   layers_any_limit adv b acc,
   layers_any_filter adv b acc,
   fun w hw => layers_filter_topmost adv b acc w hw⟩

/-- C6: `GenReturn` builds its return body with accumulate equal to
the write marker and advance_command false, `GenWith` with both equal
to the write marker; hence an Accumulate stage appears iff the
preceding pipeline wrote, and in a RETURN pipeline an Accumulate stage
never advances the command. -/
theorem genReturn_genWith_accumulate (ret : Return) (w : With)
    (input_op : LogicalOperator) (is_write : Bool) (bound : List Symbol) :
    GenReturn ret input_op is_write bound =
      GenReturnBody input_op false (mkReturnBodyContext ret.body bound none) is_write
    ∧ (GenWith w input_op is_write bound).1 =
      GenReturnBody input_op is_write (mkReturnBodyContext w.body bound w.whereExpr) is_write
    ∧ (returnBodyLayers false (mkReturnBodyContext ret.body bound none)
        is_write).any isAccumulateL = is_write
    ∧ (returnBodyLayers is_write (mkReturnBodyContext w.body bound w.whereExpr)
        is_write).any isAccumulateL = is_write
    ∧ (∀ (syms : List Symbol) (a : Bool),
        OpLayer.accumulateL syms a ∈
          returnBodyLayers false (mkReturnBodyContext ret.body bound none) is_write →
        a = false) :=
  ⟨rfl, rfl, layers_any_accumulate _ _ _, layers_any_accumulate _ _ _,
   fun syms a h => layers_accumulate_advance _ _ _ syms a h⟩

/-! Sorting instances and the `RETURN *` expansion theorem (C7). -/

instance : IsTotal Symbol symNameLe :=
  ⟨fun a b => le_total a.name b.name⟩

instance : IsTrans Symbol symNameLe :=
  ⟨fun _ _ _ h₁ h₂ => le_trans h₁ h₂⟩

instance : IsTotal NamedExpr neNameLe :=
  ⟨fun a b => le_total a.name b.name⟩

instance : IsTrans NamedExpr neNameLe :=
  ⟨fun _ _ _ h₁ h₂ => le_trans h₁ h₂⟩

/-- C7: `RETURN *` expansion emits one fresh identifier and named
expression per user-declared symbol of the bound set and no others;
output symbols and named expressions end up sorted ascending by name;
and the set of output symbols equals the set of user-declared symbols
of the original bound set. -/
theorem expandUserSymbols_spec (bound : List Symbol) :
    ((expandUserSymbols bound).output_symbols).Perm
        (bound.filter fun s => s.user_declared)
    ∧ ((expandUserSymbols bound).named_expressions).Perm
        ((bound.filter fun s => s.user_declared).map expandedNamedExpr)
    ∧ List.Sorted symNameLe (expandUserSymbols bound).output_symbols
    ∧ List.Sorted neNameLe (expandUserSymbols bound).named_expressions
    ∧ (∀ s, s ∈ (expandUserSymbols bound).output_symbols ↔
        s ∈ bound ∧ s.user_declared = true) := by
  refine ⟨List.perm_insertionSort _ _, List.perm_insertionSort _ _,
    List.sorted_insertionSort _ _, List.sorted_insertionSort _ _, ?_⟩
  intro s
  simp [expandUserSymbols, List.mem_filter]

/-! Further structural lemmas on the classifier visitor, for C9. -/

mutual

/-- Visiting an expression never changes the output symbols. -/
theorem visitExpr_output : ∀ (st : ClassifierState) (e : Expr),
    (visitExpr st e).output_symbols = st.output_symbols
  | st, .lit => rfl
  | st, .param => rfl
  | st, .ident s => by
    by_cases h : s ∈ st.output_symbols <;>
      simp [visitExpr, ClassifierState.pushFlag, h]
  | st, .binop k e₁ e₂ => by
    have h₁ := visitExpr_output st e₁
    have h₂ := visitExpr_output (visitExpr st e₁) e₂
    simp [visitExpr, h₁, h₂]
  | st, .fn args => by
    have h := visitList_output st args
    simp [visitExpr, h]
  | st, .listLit elems => by
    have h := visitList_output st elems
    simp [visitExpr, h]
  | st, .mapLit elems => by
    have h := visitList_output st elems
    simp [visitExpr, h]
  | st, .aggrCountStar sym => rfl
  | st, .aggr e₁ op sym => by
    have h₁ := visitExpr_output st e₁
    simp [visitExpr, h₁]
  | st, .aggrCollectMap e₁ e₂ sym => by
    have h₁ := visitExpr_output st e₁
    have h₂ := visitExpr_output (visitExpr st e₁) e₂
    simp [visitExpr, h₁, h₂]

/-- Visiting a list of expressions never changes the output symbols. -/
theorem visitList_output : ∀ (st : ClassifierState) (es : List Expr),
    (visitList st es).output_symbols = st.output_symbols
  | st, [] => rfl
  | st, e :: es => by
    have h₁ := visitExpr_output st e
    have h₂ := visitList_output (visitExpr st e) es
    simp [visitList, h₂, h₁]

end

mutual

/-- Visiting an expression only adds used symbols. -/
theorem visitExpr_used_mono : ∀ (st : ClassifierState) (e : Expr) (s : Symbol),
    s ∈ st.used_symbols → s ∈ (visitExpr st e).used_symbols
  | st, .lit, s => fun h => h
  | st, .param, s => fun h => h
  | st, .ident t, s => by
    intro h
    by_cases ht : t ∈ st.output_symbols <;>
      simp [visitExpr, ClassifierState.pushFlag, ht, mem_insertSym, h]
  | st, .binop k e₁ e₂, s => by
    intro h
    have h₁ := visitExpr_used_mono st e₁ s h
    have h₂ := visitExpr_used_mono (visitExpr st e₁) e₂ s h₁
    simp [visitExpr, h₂]
  | st, .fn args, s => by
    intro h
    have h₁ := visitList_used_mono st args s h
    simp [visitExpr, h₁]
  | st, .listLit elems, s => by
    intro h
    have h₁ := visitList_used_mono st elems s h
    simp [visitExpr, h₁]
  | st, .mapLit elems, s => by
    intro h
    have h₁ := visitList_used_mono st elems s h
    simp [visitExpr, h₁]
  | st, .aggrCountStar sym, s => fun h => h
  | st, .aggr e₁ op sym, s => by
    intro h
    have h₁ := visitExpr_used_mono st e₁ s h
    simp [visitExpr, h₁]
  | st, .aggrCollectMap e₁ e₂ sym, s => by
    intro h
    have h₁ := visitExpr_used_mono st e₁ s h
    have h₂ := visitExpr_used_mono (visitExpr st e₁) e₂ s h₁
    simp [visitExpr, h₂]

/-- Visiting a list of expressions only adds used symbols. -/
theorem visitList_used_mono : ∀ (st : ClassifierState) (es : List Expr) (s : Symbol),
    s ∈ st.used_symbols → s ∈ (visitList st es).used_symbols
  | st, [], s => fun h => h
  | st, e :: es, s => by
    intro h
    have h₁ := visitExpr_used_mono st e s h
    have h₂ := visitList_used_mono (visitExpr st e) es s h₁
    simp [visitList, h₂]

end

/-- Visiting a bare identifier not among the output symbols records it
as used. -/
theorem visitExpr_ident_used {st : ClassifierState} {s : Symbol}
    (h : s ∉ st.output_symbols) :
    s ∈ (visitExpr st (Expr.ident s)).used_symbols := by
  simp [visitExpr, ClassifierState.pushFlag, h, mem_insertSym]

/-- Folding the classifier over a list of ORDER BY pairs only adds
used symbols. -/
theorem orderByFold_used_mono (ob : List (OrderingKind × Expr))
    (st : ClassifierState) (s : Symbol) (h : s ∈ st.used_symbols) :
    s ∈ (ob.foldl (fun st p => visitExpr st p.2) st).used_symbols := by
  induction ob generalizing st with
  | nil => exact h
  | cons p ob ih => exact ih _ (visitExpr_used_mono _ _ _ h)

/-- Folding the classifier over ORDER BY pairs collects any identifier
ordered by, provided it is not an output symbol. -/
theorem orderByFold_collects (ob : List (OrderingKind × Expr))
    (st : ClassifierState) (k : OrderingKind) (s : Symbol)
    (hmem : (k, Expr.ident s) ∈ ob) (hout : s ∉ st.output_symbols) :
    s ∈ (ob.foldl (fun st p => visitExpr st p.2) st).used_symbols := by
  induction ob generalizing st with
  | nil => cases hmem
  | cons p ob ih =>
    rcases List.mem_cons.mp hmem with heq | htail
    · rw [List.foldl_cons, ← heq]
      exact orderByFold_used_mono ob _ s (visitExpr_ident_used hout)
    · rw [List.foldl_cons]
      exact ih _ htail (by rw [visitExpr_output]; exact hout)

/-- C9: when the named expressions of a return body contain an
aggregation, the `ReturnBodyContext` constructor does not visit
ORDER BY or WHERE — the resulting context equals the one built with no
ORDER BY and no WHERE except for the pass-through fields, so a symbol
referenced only there contributes nothing to `used_symbols` or
`group_by`; when the aggregation list is empty, ORDER BY is visited
and an ordered-by identifier outside the output symbols is collected
into `used_symbols`. -/
theorem aggregation_skips_order_by_where (body : ReturnBody)
    (bound : List Symbol) (wh : Option Expr) :
    ((namedExprPhase body bound).aggregations.isEmpty = false →
      mkReturnBodyContext body bound wh =
        { mkReturnBodyContext { body with order_by := [] } bound none with
            order_by := body.order_by, whereExpr := wh })
    ∧ ((namedExprPhase body bound).aggregations.isEmpty = true →
      ∀ (k : OrderingKind) (s : Symbol),
        (k, Expr.ident s) ∈ body.order_by →
        s ∉ (namedExprPhase body bound).output_symbols →
        s ∈ (mkReturnBodyContext body bound wh).used_symbols) := by
  constructor
  · intro h
    have hsame : namedExprPhase { body with order_by := [] } bound =
        namedExprPhase body bound := rfl
    simp only [mkReturnBodyContext, hsame, h, Bool.false_eq_true, if_false]
  · intro h k s hmem hout
    have hcoll := orderByFold_collects body.order_by (namedExprPhase body bound) k s hmem hout
    simp only [mkReturnBodyContext, h, if_true]
    cases wh with
    | none => simpa using hcoll
    | some w => simpa using visitExpr_used_mono _ w s hcoll

/-! CREATE planning lemmas (C5, C8). -/

theorem insertSym_snd_eq_false {b : List Symbol} {t : Symbol} (h : t ∈ b) :
    (insertSym b t).2 = false := by
  simp [insertSym, h]

theorem insertSym_snd_eq_true {b : List Symbol} {t : Symbol} (h : t ∉ b) :
    (insertSym b t).2 = true := by
  simp [insertSym, h]

theorem reduceGo_error (err : PlanAbort) (prev : NodeAtom)
    (rest : List (EdgeAtom × NodeAtom)) :
    reduceGo createCollect (Except.error err) prev rest = Except.error err := by
  induction rest generalizing prev with
  | nil => rfl
  | cons en rest ih =>
    rcases en with ⟨e, n⟩
    simp [reduceGo, createCollect, ih]

theorem createBase_eq (input_op : LogicalOperator) (bound : List Symbol)
    (n : NodeAtom) :
    createBase input_op bound n =
      Except.ok
        ((if n.sym ∈ bound then input_op else LogicalOperator.createNode n.sym input_op),
         (insertSym bound n.sym).1) := by
  by_cases h : n.sym ∈ bound <;> simp [createBase, insertSym, h]

/-- C5 counterexample: planning CREATE for the pattern
`(n)-[e]->(b)` with the edge symbol already bound does not surface a
recoverable typed planner error — the embedded planner reaches the
`LOG(FATAL)` process abort, refuting "never causes a process abort". -/
theorem create_edge_redeclaration_cex :
    GenCreateForPattern
        (Pattern.mk symP false (NodeAtom.mk symN) [(EdgeAtom.mk symE, NodeAtom.mk symB)])
        LogicalOperator.once [symE] =
      Except.error (PlanAbort.logFatal
        "Symbols used for created edges cannot be redeclared.") := by
  rfl

/-- C5 (amended): re-declaring an edge symbol in a CREATE pattern is a
fatal planning error: `GenCreateForPattern` aborts the process through
`LOG(FATAL)` ("Symbols used for created edges cannot be redeclared."),
rather than returning a typed recoverable planner error. -/
theorem create_edge_redeclaration_aborts (p : Pattern)
    (input_op : LogicalOperator) (bound : List Symbol)
    (e : EdgeAtom) (n : NodeAtom) (rest : List (EdgeAtom × NodeAtom))
    (hrest : p.rest = (e, n) :: rest) (hedge : e.sym ∈ bound) :
    GenCreateForPattern p input_op bound =
      Except.error (PlanAbort.logFatal
        "Symbols used for created edges cannot be redeclared.") := by
  have hmem₀ : e.sym ∈ (insertSym bound p.first.sym).1 :=
    mem_insertSym.mpr (Or.inl hedge)
  have hmem₁ : e.sym ∈ (insertSym (insertSym bound p.first.sym).1 n.sym).1 :=
    mem_insertSym.mpr (Or.inl hmem₀)
  have hcol : ∀ (op₀ : LogicalOperator),
      createCollect (Except.ok (op₀, (insertSym bound p.first.sym).1)) p.first e n =
        Except.error (PlanAbort.logFatal
          "Symbols used for created edges cannot be redeclared.") := by
    intro op₀
    simp [createCollect, insertSym_snd_eq_false hmem₁]
  rw [GenCreateForPattern, ReducePattern, hrest, createBase_eq]
  by_cases hfirst : p.first.sym ∈ bound <;>
    simp [hfirst, reduceGo, hcol, reduceGo_error]

/-- C8: CREATE-pattern planning emits `CreateNode` for the first node
iff its symbol was unbound (else the input passes through); each
triple step emits `CreateExpand` with the previous node's symbol as
input symbol and `node_existing` true iff the next node's symbol was
bound before the triple; and the reduced plan is wrapped in
`ConstructNamedPath` over all atom symbols iff the pattern identifier
is user-declared. -/
theorem genCreateForPattern_structure (input_op : LogicalOperator)
    (bound : List Symbol) :
    (∀ n : NodeAtom, createBase input_op bound n =
      Except.ok
        ((if n.sym ∈ bound then input_op else LogicalOperator.createNode n.sym input_op),
         (insertSym bound n.sym).1))
    ∧ (∀ (last_op : LogicalOperator) (b : List Symbol) (prev : NodeAtom)
        (e : EdgeAtom) (n : NodeAtom),
        e.sym ∉ (insertSym b n.sym).1 →
        createCollect (Except.ok (last_op, b)) prev e n =
          Except.ok
            (LogicalOperator.createExpand n.sym e.sym last_op prev.sym
               (decide (n.sym ∈ b)),
             (insertSym (insertSym b n.sym).1 e.sym).1))
    ∧ (∀ (p : Pattern) (op : LogicalOperator) (b : List Symbol),
        ReducePattern p (createBase input_op bound) createCollect = Except.ok (op, b) →
        GenCreateForPattern p input_op bound =
          Except.ok
            ((if p.user_declared then
                LogicalOperator.constructNamedPath op p.path_sym (patternAtomSyms p)
              else op),
             b)) := by
  refine ⟨createBase_eq input_op bound, ?_, ?_⟩
  · intro last_op b prev e n hedge
    have hnode : (insertSym b n.sym).2 = !decide (n.sym ∈ b) := by
      by_cases h : n.sym ∈ b <;> simp [insertSym, h]
    simp [createCollect, insertSym_snd_eq_true hedge, hnode]
  · intro p op b hred
    rw [GenCreateForPattern, hred]
    by_cases h : p.user_declared <;> simp [h]

/-! Named-path construction (C10). -/

/-- Stack `ConstructNamedPath` operators for a list of emitted paths,
in list order. -/
def applyPathOps (op : LogicalOperator)
    (emitted : List (Symbol × List Symbol)) : LogicalOperator :=
  emitted.foldl (fun o e => LogicalOperator.constructNamedPath o e.1 e.2) op

/-- C10: when no pending path's symbol occurs among the pending atom
lists (always true in the planner, where atoms are node and edge
symbols), `GenNamedPaths` emits a `ConstructNamedPath` for exactly
those pending paths whose atom symbols are all bound (in order),
additionally binds each emitted path's own symbol, and keeps every
other entry pending with the operator tail and the bound set
unaffected by it. -/
theorem genNamedPaths_spec (op : LogicalOperator) (bound : List Symbol)
    (nps : List (Symbol × List Symbol))
    (hdisj : ∀ e ∈ nps, ∀ e' ∈ nps, e.1 ∉ e'.2) :
    GenNamedPaths op bound nps =
      (applyPathOps op (nps.filter fun e => allAreBound bound e.2),
       insertAll bound ((nps.filter fun e => allAreBound bound e.2).map Prod.fst),
       nps.filter fun e => !allAreBound bound e.2)
    ∧ (∀ e ∈ nps, allAreBound bound e.2 = true →
        e.1 ∈ (GenNamedPaths op bound nps).2.1) := by
  have main : ∀ (nps : List (Symbol × List Symbol)),
      (∀ e ∈ nps, ∀ e' ∈ nps, e.1 ∉ e'.2) →
      ∀ (op : LogicalOperator) (bound : List Symbol),
      GenNamedPaths op bound nps =
        (applyPathOps op (nps.filter fun e => allAreBound bound e.2),
         insertAll bound ((nps.filter fun e => allAreBound bound e.2).map Prod.fst),
         nps.filter fun e => !allAreBound bound e.2) := by
    intro nps
    induction nps with
    | nil => intro _ op bound; simp [GenNamedPaths, applyPathOps, insertAll]
    | cons hd rest ih =>
      intro hd_disj op bound
      rcases hd with ⟨p, atoms⟩
      have hrest_disj : ∀ e ∈ rest, ∀ e' ∈ rest, e.1 ∉ e'.2 := by
        intro e he e' he'
        exact hd_disj e (List.mem_cons_of_mem _ he) e' (List.mem_cons_of_mem _ he')
      have hp_not : ∀ e ∈ rest, p ∉ e.2 := by
        intro e he
        exact hd_disj (p, atoms) (List.mem_cons_self _ _) e (List.mem_cons_of_mem _ he)
      cases hb : allAreBound bound atoms with
      | true =>
        have hsame : ∀ e ∈ rest,
            allAreBound ((insertSym bound p).1) e.2 = allAreBound bound e.2 := by
          intro e he
          exact allAreBound_insertSym_of_not_mem (hp_not e he)
        have hfpos : List.filter (fun e => allAreBound ((insertSym bound p).1) e.2) rest =
            List.filter (fun e => allAreBound bound e.2) rest :=
          List.filter_congr hsame
        have hfneg : List.filter (fun e => !allAreBound ((insertSym bound p).1) e.2) rest =
            List.filter (fun e => !allAreBound bound e.2) rest :=
          List.filter_congr (by intro e he; rw [hsame e he])
        rw [GenNamedPaths]
        rw [hb]  -- reduce the if
        rw [ih hrest_disj (LogicalOperator.constructNamedPath op p atoms) ((insertSym bound p).1)]
        simp only [hfpos, hfneg, List.filter_cons, hb]
        simp [applyPathOps, insertAll]
      | false =>
        rw [GenNamedPaths]
        rw [hb]
        rw [ih hrest_disj op bound]
        simp only [List.filter_cons, hb]
        simp [applyPathOps, insertAll]
  have hmain := main nps hdisj op bound
  refine ⟨hmain, ?_⟩
  intro e he hbd
  rw [hmain]
  simp only
  rw [mem_insertAll]
  right
  rw [List.mem_map]
  exact ⟨e, List.mem_filter.mpr ⟨he, hbd⟩, rfl⟩

/-! Witnesses instantiating the theorems with hypotheses at concrete
inputs. -/

/-- Witness for C1: at a concrete context with a WHERE expression,
the Filter stage is topmost. -/
theorem genReturnBody_pipeline_witness :
    (returnBodyLayers false
        (ReturnBodyCtx.mk false [] [] none none (some Expr.lit) [] [] [] []) false).head? =
      some (OpLayer.filterL Expr.lit) :=
  (genReturnBody_pipeline LogicalOperator.once false
      (ReturnBodyCtx.mk false [] [] none none (some Expr.lit) [] [] [] [])
      false).2.2.2.2.2.2.2.2.2 Expr.lit rfl

/-- Witness for the amended C5 theorem: a concrete CREATE pattern with
its edge symbol already bound aborts fatally. -/
theorem create_edge_redeclaration_aborts_witness :
    GenCreateForPattern
        (Pattern.mk symQ true (NodeAtom.mk symM) [(EdgeAtom.mk symE, NodeAtom.mk symB)])
        LogicalOperator.once [symM, symE] =
      Except.error (PlanAbort.logFatal
        "Symbols used for created edges cannot be redeclared.") :=
  create_edge_redeclaration_aborts _ LogicalOperator.once [symM, symE]
    (EdgeAtom.mk symE) (NodeAtom.mk symB) [] rfl (by decide)

/-- Witness for C6: for the trivial return body after a write, the
Accumulate stage of the RETURN pipeline carries advance_command
false. -/
theorem genReturn_genWith_accumulate_witness : (false : Bool) = false :=
  (genReturn_genWith_accumulate (Return.mk (ReturnBody.mk false [] [] none none false))
      (With.mk (ReturnBody.mk false [] [] none none false) none)
      LogicalOperator.once true []).2.2.2.2 [] false
    (List.mem_cons_of_mem _ (List.mem_cons_self _ _))

/-- Witness for C8 at concrete inputs: a triple step with a fresh edge
symbol, and the named-path wrap over a single-node pattern. -/
theorem genCreateForPattern_structure_witness :
    createCollect (Except.ok (LogicalOperator.once, [symN])) (NodeAtom.mk symN)
        (EdgeAtom.mk symE) (NodeAtom.mk symB) =
      Except.ok
        (LogicalOperator.createExpand symB symE LogicalOperator.once symN
           (decide (symB ∈ [symN])),
         (insertSym (insertSym [symN] symB).1 symE).1)
    ∧ GenCreateForPattern (Pattern.mk symP true (NodeAtom.mk symN) [])
        LogicalOperator.once [] =
      Except.ok
        ((if (Pattern.mk symP true (NodeAtom.mk symN) []).user_declared then
            LogicalOperator.constructNamedPath
              (LogicalOperator.createNode symN LogicalOperator.once) symP
              (patternAtomSyms (Pattern.mk symP true (NodeAtom.mk symN) []))
          else LogicalOperator.createNode symN LogicalOperator.once),
         [symN]) :=
  ⟨(genCreateForPattern_structure LogicalOperator.once [symN]).2.1 LogicalOperator.once
      [symN] (NodeAtom.mk symN) (EdgeAtom.mk symE) (NodeAtom.mk symB) (by decide),
   (genCreateForPattern_structure LogicalOperator.once []).2.2
      (Pattern.mk symP true (NodeAtom.mk symN) [])
      (LogicalOperator.createNode symN LogicalOperator.once) [symN] rfl⟩

/-- A return body `count(*) AS c ORDER BY m`, whose ORDER BY symbol is
referenced nowhere else; used by the C9 witness. -/
def aggBody : ReturnBody :=
  ReturnBody.mk false [NamedExpr.mk "c" (Expr.aggrCountStar symAgg) symAgg]
    [(OrderingKind.asc, Expr.ident symM)] none none false

/-- Witness for C9: with an aggregation present, the context built for
`aggBody` ignores its ORDER BY except as a pass-through field. -/
theorem aggregation_skips_order_by_where_witness :
    mkReturnBodyContext aggBody [symN, symM] none =
      { mkReturnBodyContext { aggBody with order_by := [] } [symN, symM] none with
          order_by := aggBody.order_by, whereExpr := none } :=
  (aggregation_skips_order_by_where aggBody [symN, symM] none).1 rfl

/-- Witness for C10: of two pending paths, the fully bound one is
emitted and its path symbol becomes bound. -/
theorem genNamedPaths_spec_witness :
    symP ∈ (GenNamedPaths LogicalOperator.once [symN]
        [(symP, [symN]), (symQ, [symM])]).2.1 :=
  (genNamedPaths_spec LogicalOperator.once [symN] [(symP, [symN]), (symQ, [symM])]
      (by decide)).2 (symP, [symN]) (by decide) (by decide)

end QueryPlan
